import Mathlib

/-!
# Verification of the secret-santa group lifecycle and draw engine

Shallow embedding of the group data model and the operations implemented in
`src/App.tsx`: the Fisher-Yates `shuffle`, `handleRunDraw`, `handleJoinGroup`,
`handleCreateGroup`, `handleDeleteGroup`, the selection-fallback effect, and
`loadGroupFields`.  JavaScript objects used as string-keyed records are
modelled as association lists with first-match lookup and update-or-append
insertion; the random source of `Math.random` is modelled as an arbitrary
choice function `Nat → Nat` (the index chosen at step `i` is reduced mod
`i + 1`, covering exactly the outcomes `0 .. i` of
`Math.floor(Math.random() * (i + 1))`); store writes that happen only on the
success path of a handler are modelled by `Except`, with explicit
"document after the call" functions recording that an error performs no write.
-/

namespace SecretSanta

/-- Member profile stored in the `members` record (`App.tsx` type `MemberProfile`). -/
structure MemberProfile where
  displayName : String
  photoURL : Option String
deriving Repr, DecidableEq

/-- One entry of the `assignments` record (`App.tsx` type `Assignment`). -/
structure Assignment where
  recipientId : String
  recipientName : String
  recipientPhotoURL : Option String
deriving Repr, DecidableEq

/-- A custom join-form field (`App.tsx` type `CustomField`). -/
structure CustomField where
  id : String
  label : String
  placeholder : Option String
deriving Repr, DecidableEq

/-- The authenticated user as consumed by the handlers (firebase `User`). -/
structure User where
  uid : String
  displayName : Option String
  email : Option String
  phoneNumber : Option String
  photoURL : Option String
deriving Repr, DecidableEq

/-- A group document (`App.tsx` type `Group`).  Server timestamps are
modelled as `Nat`; JS records keyed by user id are association lists. -/
structure Group where
  id : String
  name : String
  description : Option String
  ownerId : String
  ownerName : String
  ownerPhotoURL : Option String
  memberIds : List String
  members : List (String × MemberProfile)
  assignments : Option (List (String × Assignment))
  customFields : List CustomField
  memberResponses : List (String × List (String × String))
  createdAt : Option Nat
  drawRunAt : Option Nat
deriving Repr, DecidableEq

/-- The error taxonomy of the spec, one constructor per user-facing failure
message set by the handlers. -/
inductive AppError where
  | NotFound
  | AlreadyMember
  | IncompleteResponses (labels : List String)
  | Forbidden
  | InsufficientMembers
  | ValidationError
deriving Repr, DecidableEq

/-- JavaScript `a || b` on possibly-absent strings: an absent or empty
string falls through to the default. -/
def jsOr (a : Option String) (b : String) : String :=
  match a with
  | none => b
  | some s => if s = "" then b else s

/-- `getDisplayName` from `App.tsx`:
`user.displayName || user.email || user.phoneNumber || 'Anonymous gifter'`. -/
def getDisplayName (u : User) : String :=
  jsOr u.displayName (jsOr u.email (jsOr u.phoneNumber "Anonymous gifter"))

/-- JavaScript `String.prototype.trim()`: strip leading and trailing
whitespace.  Implemented by structural recursion on the character data so
that it evaluates on concrete strings. -/
def jsTrim (s : String) : String :=
  ⟨((s.data.dropWhile Char.isWhitespace).reverse.dropWhile
      Char.isWhitespace).reverse⟩

/-- JS-object property write `r[k] = v`: update the existing entry in place
if the key is present, otherwise append a new entry. -/
def recordSet {V : Type} (r : List (String × V)) (k : String) (v : V) :
    List (String × V) :=
  if r.any (fun p => p.1 == k) then
    r.map (fun p => if p.1 == k then (p.1, v) else p)
  else r ++ [(k, v)]

/-- JS-object property read `r[k]`: the first entry with the given key. -/
def recordLookup {V : Type} (r : List (String × V)) (k : String) : Option V :=
  (r.find? (fun p => p.1 == k)).map Prod.snd

/-- Firestore `arrayUnion(uid)` applied to a `memberIds` array: append the
element only if it is not already present. -/
def arrayUnion (ids : List String) (uid : String) : List String :=
  if uid ∈ ids then ids else ids ++ [uid]

/-- The destructuring swap `[copy[i], copy[j]] = [copy[j], copy[i]]`. -/
def listSwap {α : Type} (l : List α) (i j : Nat) : List α :=
  match l[i]?, l[j]? with
  | some a, some b => (l.set i b).set j a
  | _, _ => l

/-- The loop of `shuffle`: at loop counter `i+1` swap position `i+1` with a
chosen position `rand (i+1) % (i+2) ≤ i+1`, then continue at `i`; the loop
stops once the counter reaches `0`. -/
def shuffleFrom {α : Type} (rand : Nat → Nat) : List α → Nat → List α
  | copy, 0 => copy
  | copy, i + 1 => shuffleFrom rand (listSwap copy (i + 1) (rand (i + 1) % (i + 2))) i

/-- `shuffle` from `App.tsx` (Fisher-Yates over a copy of the input),
parametrised by the outcome `rand` of the random source. -/
def shuffle {α : Type} (items : List α) (rand : Nat → Nat) : List α :=
  shuffleFrom rand items (items.length - 1)

/-- The body of the assignment loop of `handleRunDraw` at position `index`:
the giver at `index` gets the member at `(index + 1) % n` as recipient, with
name and avatar denormalised from `group.members` (defaults `'Mystery Santa'`
and `null` when the recipient has no profile). -/
def assignmentFor (members : List (String × MemberProfile))
    (shuffled : List String) (index : Nat) : Assignment :=
  let receiverId := shuffled.getD ((index + 1) % shuffled.length) ""
  let receiverProfile := recordLookup members receiverId
  { recipientId := receiverId
    recipientName := (receiverProfile.map MemberProfile.displayName).getD "Mystery Santa"
    recipientPhotoURL := receiverProfile.bind MemberProfile.photoURL }

/-- The assignment loop of `handleRunDraw`: build the `assignments` record
by writing `assignments[shuffled[index]]` for `index = 0 .. n-1`. -/
def buildAssignments (members : List (String × MemberProfile))
    (shuffled : List String) : List (String × Assignment) :=
  (List.range shuffled.length).foldl
    (fun acc index => recordSet acc (shuffled.getD index "") (assignmentFor members shuffled index))
    []

/-- `handleRunDraw` from `App.tsx`: owner check, then member-count check,
then shuffle, build assignments and commit `assignments` and `drawRunAt` in
one update.  `requesterId` is the signed-in user's uid, `now` the
server-assigned timestamp. -/
def handleRunDraw (g : Group) (requesterId : String) (rand : Nat → Nat)
    (now : Nat) : Except AppError Group :=
  if requesterId ≠ g.ownerId then .error .Forbidden
  else if g.memberIds.length < 2 then .error .InsufficientMembers
  else
    let shuffled := shuffle g.memberIds rand
    .ok { g with assignments := some (buildAssignments g.members shuffled)
                 drawRunAt := some now }

/-- The `assignments` record committed by a successful draw. -/
def drawAssignments (g : Group) (rand : Nat → Nat) : List (String × Assignment) :=
  buildAssignments g.members (shuffle g.memberIds rand)

/-- The giver → recipient successor map induced by an assignments record. -/
def nextOf (assignments : List (String × Assignment)) (x : String) : Option String :=
  (recordLookup assignments x).map Assignment.recipientId

/-- The giver → recipient map induced by the committed assignments. -/
def drawNext (g : Group) (rand : Nat → Nat) : String → Option String :=
  nextOf (drawAssignments g rand)

/-- `k`-fold iteration of a partial successor map, used to follow the
giver → recipient chain. -/
def stepN (next : String → Option String) : Nat → String → Option String
  | 0, x => some x
  | k + 1, x => (next x).bind (stepN next k)

/-- The group document at the draw's ref after `handleRunDraw` returns: the
`updateDoc` call runs only on the success path, so an error leaves the
document as it was. -/
def drawDocAfter (g : Group) (requesterId : String) (rand : Nat → Nat)
    (now : Nat) : Group :=
  match handleRunDraw g requesterId rand now with
  | .ok g' => g'
  | .error _ => g

/-- The blank-response test of `handleJoinGroup`:
`!joinResponses[field.id] || !joinResponses[field.id].trim()`. -/
def isBlankResponse (joinResponses : List (String × String)) (field : CustomField) : Bool :=
  match recordLookup joinResponses field.id with
  | none => true
  | some v => jsTrim v = ""

/-- `handleJoinGroup` from `App.tsx`, after the join code has been resolved
against the store: `fetched` is the result of `getDoc` (`none` when the
snapshot does not exist).  On success a single `updateDoc` commits the
set-union membership add, the profile, and the responses. -/
def handleJoinGroup (fetched : Option Group) (u : User)
    (joinResponses : List (String × String)) : Except AppError Group :=
  match fetched with
  | none => .error .NotFound
  | some g =>
    if u.uid ∈ g.memberIds then .error .AlreadyMember
    else
      let missingFields := g.customFields.filter (isBlankResponse joinResponses)
      if 0 < g.customFields.length ∧ missingFields ≠ [] then
        .error (.IncompleteResponses (missingFields.map CustomField.label))
      else
        .ok { g with
          memberIds := arrayUnion g.memberIds u.uid
          members := recordSet g.members u.uid ⟨getDisplayName u, u.photoURL⟩
          memberResponses := recordSet g.memberResponses u.uid joinResponses }

/-- The group document after `handleJoinGroup`: the `updateDoc` call runs
only on the success path, so an error leaves the document as it was. -/
def joinDocAfter (g : Group) (u : User)
    (joinResponses : List (String × String)) : Group :=
  match handleJoinGroup (some g) u joinResponses with
  | .ok g' => g'
  | .error _ => g

/-- `handleDeleteGroup` from `App.tsx`: owner check, then the
`window.confirm` gate (external; modelled by `confirmed`), then `deleteDoc`.
`ok none` means the document was deleted, `ok (some g)` that it still exists. -/
def handleDeleteGroup (g : Group) (requesterId : String) (confirmed : Bool) :
    Except AppError (Option Group) :=
  if requesterId ≠ g.ownerId then .error .Forbidden
  else if ¬confirmed then .ok (some g)
  else .ok none

/-- The group document after `handleDeleteGroup`: only the confirmed,
owner-invoked path reaches `deleteDoc`; every other outcome leaves the
document in place. -/
def deleteDocAfter (g : Group) (requesterId : String) (confirmed : Bool) :
    Option Group :=
  match handleDeleteGroup g requesterId confirmed with
  | .ok o => o
  | .error _ => some g

/-- `handleCreateGroup` from `App.tsx`: trim the name, fail on a blank name,
otherwise `addDoc` a fresh group document.  `newId` is the store-assigned
document id and `now` the server-assigned creation time. -/
def handleCreateGroup (u : User) (newGroupName newGroupDescription : String)
    (customFields : List CustomField) (newId : String) (now : Nat) :
    Except AppError Group :=
  let trimmedName := jsTrim newGroupName
  if trimmedName = "" then .error .ValidationError
  else
    .ok { id := newId
          name := trimmedName
          description := some (jsTrim newGroupDescription)
          ownerId := u.uid
          ownerName := getDisplayName u
          ownerPhotoURL := u.photoURL
          memberIds := [u.uid]
          members := [(u.uid, ⟨getDisplayName u, u.photoURL⟩)]
          assignments := none
          customFields := if 0 < customFields.length then customFields else []
          memberResponses := []
          createdAt := some now
          drawRunAt := none }

/-- The document created by `handleCreateGroup`, if any: `addDoc` runs only
on the success path, so a validation error persists nothing. -/
def createdDocAfter (u : User) (newGroupName newGroupDescription : String)
    (customFields : List CustomField) (newId : String) (now : Nat) :
    Option Group :=
  match handleCreateGroup u newGroupName newGroupDescription customFields newId now with
  | .ok g => some g
  | .error _ => none

/-- The selection-fallback effect of `App`: keep `selectedGroupId` when it is
set and still present in `groups`, otherwise fall back to
`groups[0]?.id ?? null`. -/
def resolveSelection (groups : List Group) (selectedGroupId : Option String) :
    Option String :=
  match selectedGroupId with
  | some i => if groups.any (fun g => g.id == i) then some i
              else (groups.head?).map Group.id
  | none => (groups.head?).map Group.id

/-- Outcome of the `getDoc` lookup performed by `loadGroupFields`: the
snapshot exists, does not exist, or the awaited call threw. -/
inductive FetchResult where
  | failure
  | missing
  | found (g : Group)
deriving Repr, DecidableEq

/-- `loadGroupFields` from `App.tsx`: trim the code, skip the lookup while
the code is shorter than 20 characters, otherwise read the group's
`customFields` snapshot, degrading to the empty schema when the group is
absent or the lookup throws.  The first component records whether `getDoc`
was performed; the last is the initial blank response map. -/
def loadGroupFields (joinCode : String) (fetch : FetchResult) :
    Bool × List CustomField × List (String × String) :=
  let trimmedCode := jsTrim joinCode
  if trimmedCode = "" ∨ trimmedCode.length < 20 then (false, [], [])
  else
    match fetch with
    | .found g => (true, g.customFields, g.customFields.map (fun f => (f.id, "")))
    | .missing => (true, [], [])
    | .failure => (true, [], [])

/-- Sample authenticated user, a fixture for instantiating the verified
properties on concrete inputs. -/
def aliceUser : User :=
  { uid := "alice-uid-0000000001", displayName := some "Alice", email := none
    phoneNumber := none, photoURL := none }

/-- A second sample user fixture. -/
def bobUser : User :=
  { uid := "bob-uid-000000000002", displayName := some "Bob", email := none
    phoneNumber := none, photoURL := none }

/-- Sample group fixture: two members, owned by the first. -/
def sampleGroup : Group :=
  { id := "group-doc-id-0000001", name := "Office Party", description := none
    ownerId := "alice-uid-0000000001", ownerName := "Alice", ownerPhotoURL := none
    memberIds := ["alice-uid-0000000001", "bob-uid-000000000002"]
    members := [("alice-uid-0000000001", ⟨"Alice", none⟩),
                ("bob-uid-000000000002", ⟨"Bob", none⟩)]
    assignments := none
    customFields := [{ id := "field_1", label := "Jersey size", placeholder := none }]
    memberResponses := []
    createdAt := some 0, drawRunAt := none }

/-- Sample group fixture with a single member, for the insufficient-members
failure case. -/
def soloGroup : Group :=
  { id := "group-doc-id-0000002", name := "Solo", description := none
    ownerId := "alice-uid-0000000001", ownerName := "Alice", ownerPhotoURL := none
    memberIds := ["alice-uid-0000000001"]
    members := [("alice-uid-0000000001", ⟨"Alice", none⟩)]
    assignments := none, customFields := [], memberResponses := []
    createdAt := some 0, drawRunAt := none }

/-- Sample group fixture violating the members-superset invariant: the second
member id has no profile entry in `members`. -/
def gapGroup : Group :=
  { id := "group-doc-id-0000003", name := "Gap", description := none
    ownerId := "alice-uid-0000000001", ownerName := "Alice", ownerPhotoURL := none
    memberIds := ["alice-uid-0000000001", "bob-uid-000000000002"]
    members := [("alice-uid-0000000001", ⟨"Alice", none⟩)]
    assignments := none, customFields := [], memberResponses := []
    createdAt := some 0, drawRunAt := none }

/-- Sample group fixture with one member and a required custom field, used
for exercising the join-validation path with a fresh user. -/
def formGroup : Group :=
  { id := "group-doc-id-0000005", name := "Form", description := none
    ownerId := "alice-uid-0000000001", ownerName := "Alice", ownerPhotoURL := none
    memberIds := ["alice-uid-0000000001"]
    members := [("alice-uid-0000000001", ⟨"Alice", none⟩)]
    assignments := none
    customFields := [{ id := "field_1", label := "Jersey size", placeholder := none }]
    memberResponses := []
    createdAt := some 0, drawRunAt := none }

/-! ## Permutation facts about `shuffle` -/

theorem listSwap_perm {α : Type} [DecidableEq α] (l : List α) (i j : Nat) :
    (listSwap l i j).Perm l := by
  unfold listSwap
  cases hi : l[i]? with
  | none => exact List.Perm.refl l
  | some a =>
    cases hj : l[j]? with
    | none => exact List.Perm.refl l
    | some b =>
      obtain ⟨hil, hia⟩ := List.getElem?_eq_some.mp hi
      obtain ⟨hjl, hjb⟩ := List.getElem?_eq_some.mp hj
      rw [List.perm_iff_count]
      intro c
      show List.count c ((l.set i b).set j a) = List.count c l
      have hjl' : j < (l.set i b).length := by simpa using hjl
      have hset : (l.set i b)[j] = b := by
        rw [List.getElem_set]
        split
        · rfl
        · exact hjb
      have h2 := List.count_set a c (l.set i b) j hjl'
      have h1 := List.count_set b c l i hil
      rw [hset] at h2
      rw [hia] at h1
      have hal : a ∈ l := hia ▸ List.getElem_mem hil
      have hbl : b ∈ l := hjb ▸ List.getElem_mem hjl
      have hac : (if (a == c) = true then 1 else 0) ≤ List.count c l := by
        split
        · rename_i hac
          exact List.count_pos_iff.mpr (by rwa [← eq_of_beq hac])
        · exact Nat.zero_le _
      have hbc : (if (b == c) = true then 1 else 0) ≤ List.count c l := by
        split
        · rename_i hbc
          exact List.count_pos_iff.mpr (by rwa [← eq_of_beq hbc])
        · exact Nat.zero_le _
      omega

theorem shuffleFrom_perm {α : Type} [DecidableEq α] (rand : Nat → Nat) (k : Nat)
    (copy : List α) : (shuffleFrom rand copy k).Perm copy := by
  induction k generalizing copy with
  | zero => exact List.Perm.refl copy
  | succ i ih =>
    exact (ih (listSwap copy (i + 1) (rand (i + 1) % (i + 2)))).trans
      (listSwap_perm copy (i + 1) (rand (i + 1) % (i + 2)))

theorem shuffle_perm {α : Type} [DecidableEq α] (items : List α) (rand : Nat → Nat) :
    (shuffle items rand).Perm items :=
  shuffleFrom_perm rand (items.length - 1) items

/-! ## Record lemmas -/

theorem recordSet_append {V : Type} {acc : List (String × V)} {k : String} (v : V)
    (h : ∀ q ∈ acc, q.1 ≠ k) : recordSet acc k v = acc ++ [(k, v)] := by
  unfold recordSet
  rw [if_neg]
  intro hany
  obtain ⟨q, hq, hqk⟩ := List.any_eq_true.mp hany
  exact h q hq (by simpa using hqk)

theorem foldl_recordSet_eq_append {V : Type} (ps : List (String × V)) :
    ∀ acc : List (String × V), (ps.map Prod.fst).Nodup →
    (∀ p ∈ ps, ∀ q ∈ acc, p.1 ≠ q.1) →
    ps.foldl (fun a p => recordSet a p.1 p.2) acc = acc ++ ps := by
  induction ps with
  | nil => intro acc _ _; simp
  | cons p ps ih =>
    intro acc hnd hdisj
    rw [List.map_cons, List.nodup_cons] at hnd
    have hstep : recordSet acc p.1 p.2 = acc ++ [(p.1, p.2)] :=
      recordSet_append p.2 (fun q hq h => hdisj p (List.mem_cons_self p ps) q hq h.symm)
    have hdisj' : ∀ p' ∈ ps, ∀ q ∈ acc ++ [(p.1, p.2)], p'.1 ≠ q.1 := by
      intro p' hp' q hq
      rcases List.mem_append.mp hq with hq | hq
      · exact hdisj p' (List.mem_cons_of_mem p hp') q hq
      · have hq' : q = (p.1, p.2) := by simpa using hq
        subst hq'
        intro hcontra
        exact hnd.1 (hcontra ▸ List.mem_map_of_mem Prod.fst hp')
    rw [List.foldl_cons, hstep, ih (acc ++ [(p.1, p.2)]) hnd.2 hdisj']
    simp

theorem map_getD_range {α : Type} (l : List α) (d : α) :
    (List.range l.length).map (fun i => l.getD i d) = l := by
  induction l with
  | nil => rfl
  | cons a t ih =>
    rw [List.length_cons, List.range_succ_eq_map, List.map_cons, List.map_map]
    have hcomp : ((fun i => (a :: t).getD i d) ∘ Nat.succ) = fun i => t.getD i d := by
      funext i
      simp [List.getD_cons_succ]
    rw [hcomp, ih]
    simp [List.getD_cons_zero]

theorem buildAssignments_eq {members : List (String × MemberProfile)}
    {s : List String} (h : s.Nodup) :
    buildAssignments members s
      = (List.range s.length).map (fun i => (s.getD i "", assignmentFor members s i)) := by
  unfold buildAssignments
  rw [← List.foldl_map (fun i => (s.getD i "", assignmentFor members s i))
    (fun a p => recordSet a p.1 p.2)]
  rw [foldl_recordSet_eq_append _ [] ?keys (by intro p _ q hq; cases hq)]
  · rw [List.nil_append]
  case keys =>
    rw [List.map_map]
    have : (Prod.fst ∘ fun i => (s.getD i "", assignmentFor members s i))
        = fun i => s.getD i "" := rfl
    rw [this, map_getD_range]
    exact h

theorem recordLookup_map_range {V : Type} (f : Nat → String) (v : Nat → V) :
    ∀ n k : Nat, k < n → (∀ i, i < n → f i = f k → i = k) →
    recordLookup ((List.range n).map (fun i => (f i, v i))) (f k) = some (v k) := by
  intro n
  induction n with
  | zero => intro k hk; omega
  | succ n ih =>
    intro k hk hinj
    rw [List.range_succ, List.map_append, List.map_cons, List.map_nil]
    unfold recordLookup
    rw [List.find?_append]
    rcases Nat.lt_or_ge k n with hkn | hkn
    · have hrec := ih k hkn (fun i hi he => hinj i (Nat.lt_succ_of_lt hi) he)
      unfold recordLookup at hrec
      cases hfind : List.find? (fun p => p.1 == f k)
          ((List.range n).map fun i => (f i, v i)) with
      | none => rw [hfind] at hrec; simp at hrec
      | some q => rw [hfind] at hrec; simpa using hrec
    · have hk' : k = n := by omega
      subst hk'
      have hnone : List.find? (fun p => p.1 == f k)
          ((List.range k).map fun i => (f i, v i)) = none := by
        rw [List.find?_eq_none]
        intro x hx
        obtain ⟨i, hi, hix⟩ := List.mem_map.mp hx
        have hik : i < k := List.mem_range.mp hi
        subst hix
        simp only [beq_iff_eq]
        intro he
        exact absurd (hinj i (Nat.lt_succ_of_lt hik) he) (Nat.ne_of_lt hik)
      rw [hnone]
      simp

theorem recordLookup_map_range_none {V : Type} (f : Nat → String) (v : Nat → V)
    (n : Nat) (x : String) (hx : ∀ i, i < n → f i ≠ x) :
    recordLookup ((List.range n).map (fun i => (f i, v i))) x = none := by
  unfold recordLookup
  rw [List.find?_eq_none.mpr]
  · rfl
  · intro p hp
    obtain ⟨i, hi, hip⟩ := List.mem_map.mp hp
    subst hip
    simpa using hx i (List.mem_range.mp hi)

theorem nodup_getD_inj {s : List String} (h : s.Nodup) {i j : Nat}
    (hi : i < s.length) (hj : j < s.length)
    (he : s.getD i "" = s.getD j "") : i = j := by
  rw [List.getD_eq_getElem s "" hi, List.getD_eq_getElem s "" hj] at he
  exact h.getElem_inj_iff.mp he

theorem recordLookup_buildAssignments {members : List (String × MemberProfile)}
    {s : List String} (h : s.Nodup) {i : Nat} (hi : i < s.length) :
    recordLookup (buildAssignments members s) (s.getD i "")
      = some (assignmentFor members s i) := by
  rw [buildAssignments_eq h]
  exact recordLookup_map_range _ _ s.length i hi
    (fun j hj he => nodup_getD_inj h hj hi he)

theorem recordLookup_buildAssignments_none {members : List (String × MemberProfile)}
    {s : List String} (h : s.Nodup) {x : String} (hx : x ∉ s) :
    recordLookup (buildAssignments members s) x = none := by
  rw [buildAssignments_eq h]
  refine recordLookup_map_range_none _ _ s.length x (fun i hi he => hx ?_)
  rw [← he, List.getD_eq_getElem s "" hi]
  exact List.getElem_mem hi

theorem nextOf_buildAssignments {members : List (String × MemberProfile)}
    {s : List String} (h : s.Nodup) {i : Nat} (hi : i < s.length) :
    nextOf (buildAssignments members s) (s.getD i "")
      = some (s.getD ((i + 1) % s.length) "") := by
  unfold nextOf
  rw [recordLookup_buildAssignments h hi]
  rfl

theorem nextOf_buildAssignments_none {members : List (String × MemberProfile)}
    {s : List String} (h : s.Nodup) {x : String} (hx : x ∉ s) :
    nextOf (buildAssignments members s) x = none := by
  unfold nextOf
  rw [recordLookup_buildAssignments_none h hx]
  rfl

theorem stepN_buildAssignments {members : List (String × MemberProfile)}
    {s : List String} (h : s.Nodup) :
    ∀ (k i : Nat), i < s.length →
    stepN (nextOf (buildAssignments members s)) k (s.getD i "")
      = some (s.getD ((i + k) % s.length) "") := by
  intro k
  induction k with
  | zero =>
    intro i hi
    simp [stepN, Nat.mod_eq_of_lt hi]
  | succ k ih =>
    intro i hi
    have hpos : 0 < s.length := Nat.pos_of_ne_zero (by omega)
    show (nextOf (buildAssignments members s) (s.getD i "")).bind _ = _
    rw [nextOf_buildAssignments h hi, Option.some_bind,
      ih ((i + 1) % s.length) (Nat.mod_lt _ hpos)]
    have harith : (i + 1) % s.length + k = ((i + 1) % s.length + k) := rfl
    rw [Nat.mod_add_mod]
    have : i + 1 + k = i + (k + 1) := by omega
    rw [this]

theorem succ_mod_inj {n i j : Nat} (hi : i < n) (hj : j < n)
    (h : (i + 1) % n = (j + 1) % n) : i = j := by
  rcases Nat.lt_or_ge (i + 1) n with h1 | h1
  · rw [Nat.mod_eq_of_lt h1] at h
    rcases Nat.lt_or_ge (j + 1) n with h2 | h2
    · rw [Nat.mod_eq_of_lt h2] at h
      omega
    · have hj1 : j + 1 = n := by omega
      rw [hj1, Nat.mod_self] at h
      omega
  · have hi1 : i + 1 = n := by omega
    rw [hi1, Nat.mod_self] at h
    rcases Nat.lt_or_ge (j + 1) n with h2 | h2
    · rw [Nat.mod_eq_of_lt h2] at h
      omega
    · have hj1 : j + 1 = n := by omega
      omega

theorem succ_mod_ne {n i : Nat} (hn : 2 ≤ n) (hi : i < n) : (i + 1) % n ≠ i := by
  rcases Nat.lt_or_ge (i + 1) n with h1 | h1
  · rw [Nat.mod_eq_of_lt h1]
    omega
  · have hi1 : i + 1 = n := by omega
    rw [hi1, Nat.mod_self]
    omega

theorem add_mod_ne_self {n i k : Nat} (hi : i < n) (hk0 : 0 < k) (hkn : k < n) :
    (i + k) % n ≠ i := by
  intro h
  have hq := Nat.div_add_mod (i + k) n
  rw [h] at hq
  have hk : k = n * ((i + k) / n) := by omega
  rcases hq2 : (i + k) / n with _ | q
  · rw [hq2] at hk
    simp at hk
    omega
  · rw [hq2] at hk
    have hexp : n * (q + 1) = n * q + n := by ring
    omega

theorem mem_iff_getD {s : List String} {x : String} :
    x ∈ s ↔ ∃ i, i < s.length ∧ s.getD i "" = x := by
  rw [List.mem_iff_getElem]
  constructor
  · rintro ⟨i, hi, he⟩
    exact ⟨i, hi, by rw [List.getD_eq_getElem s "" hi]; exact he⟩
  · rintro ⟨i, hi, he⟩
    exact ⟨i, hi, by rw [← List.getD_eq_getElem s "" hi]; exact he⟩

theorem filterMap_eq_map_of_some {β : Type} (l : List Nat) (h : Nat → Option β)
    (f : Nat → β) (he : ∀ k ∈ l, h k = some (f k)) : l.filterMap h = l.map f := by
  induction l with
  | nil => rfl
  | cons a t ih =>
    rw [List.filterMap_cons, he a (List.mem_cons_self a t), List.map_cons,
      ih (fun k hk => he k (List.mem_cons_of_mem a hk))]

theorem map_range_shift_eq_rotate (s : List String) (i : Nat)
    (hpos : 0 < s.length) :
    (List.range s.length).map (fun k => s.getD ((i + k) % s.length) "")
      = s.rotate i := by
  have hlen : (s.rotate i).length = s.length := List.length_rotate s i
  conv_rhs => rw [← map_getD_range (s.rotate i) "", hlen]
  apply List.map_congr_left
  intro k hk
  have hk' : k < s.length := List.mem_range.mp hk
  rw [List.getD_eq_getElem (s.rotate i) "" (by rw [hlen]; exact hk'),
    List.getElem_rotate,
    List.getD_eq_getElem s "" (Nat.mod_lt _ hpos)]
  congr 1
  rw [Nat.add_comm]

/-- The committed assignment map over any shuffle outcome `s` (a permutation
of the distinct member ids) is a fixed-point-free bijection of the member
set forming one single cycle. -/
theorem nextOf_buildAssignments_cycle {members : List (String × MemberProfile)}
    {mids s : List String} (hperm : s.Perm mids) (hnd : mids.Nodup)
    (hlen : 2 ≤ mids.length) :
    (∀ x, (nextOf (buildAssignments members s) x).isSome ↔ x ∈ mids)
    ∧ (∀ x y, nextOf (buildAssignments members s) x = some y → x ∈ mids ∧ y ∈ mids)
    ∧ (∀ x₁ x₂ y, nextOf (buildAssignments members s) x₁ = some y →
        nextOf (buildAssignments members s) x₂ = some y → x₁ = x₂)
    ∧ (∀ y ∈ mids, ∃ x ∈ mids, nextOf (buildAssignments members s) x = some y)
    ∧ (∀ x, nextOf (buildAssignments members s) x ≠ some x)
    ∧ (∀ x ∈ mids,
        stepN (nextOf (buildAssignments members s)) mids.length x = some x
        ∧ (∀ k, 0 < k → k < mids.length →
            stepN (nextOf (buildAssignments members s)) k x ≠ some x)
        ∧ ((List.range mids.length).filterMap
            (fun k => stepN (nextOf (buildAssignments members s)) k x)).Perm mids) := by
  have hsnd : s.Nodup := hperm.nodup_iff.mpr hnd
  have hslen : s.length = mids.length := hperm.length_eq
  have hpos : 0 < s.length := by omega
  have hmm : ∀ x, x ∈ mids ↔ x ∈ s := fun x => (hperm.mem_iff).symm
  have hgetmem : ∀ i, i < s.length → s.getD i "" ∈ s := by
    intro i hi
    rw [List.getD_eq_getElem s "" hi]
    exact List.getElem_mem hi
  refine ⟨?_, ?_, ?_, ?_, ?_, ?_⟩
  · -- defined exactly on the member set
    intro x
    by_cases hx : x ∈ s
    · obtain ⟨i, hi, he⟩ := mem_iff_getD.mp hx
      subst he
      rw [nextOf_buildAssignments hsnd hi]
      simpa using (hmm _).mpr hx
    · rw [nextOf_buildAssignments_none hsnd hx]
      simpa using fun h => hx ((hmm x).mp h)
  · -- maps members to members
    intro x y hxy
    by_cases hx : x ∈ s
    · obtain ⟨i, hi, he⟩ := mem_iff_getD.mp hx
      subst he
      rw [nextOf_buildAssignments hsnd hi] at hxy
      refine ⟨(hmm _).mpr hx, (hmm _).mpr ?_⟩
      rw [← Option.some_inj.mp hxy]
      exact hgetmem _ (Nat.mod_lt _ hpos)
    · rw [nextOf_buildAssignments_none hsnd hx] at hxy
      cases hxy
  · -- injective
    intro x₁ x₂ y h₁ h₂
    by_cases hx₁ : x₁ ∈ s
    · by_cases hx₂ : x₂ ∈ s
      · obtain ⟨i, hi, he₁⟩ := mem_iff_getD.mp hx₁
        obtain ⟨j, hj, he₂⟩ := mem_iff_getD.mp hx₂
        subst he₁
        subst he₂
        rw [nextOf_buildAssignments hsnd hi] at h₁
        rw [nextOf_buildAssignments hsnd hj] at h₂
        have he : s.getD ((i + 1) % s.length) "" = s.getD ((j + 1) % s.length) "" := by
          rw [Option.some_inj.mp h₁, Option.some_inj.mp h₂]
        have := nodup_getD_inj hsnd (Nat.mod_lt _ hpos) (Nat.mod_lt _ hpos) he
        rw [succ_mod_inj hi hj this]
      · rw [nextOf_buildAssignments_none hsnd hx₂] at h₂
        cases h₂
    · rw [nextOf_buildAssignments_none hsnd hx₁] at h₁
      cases h₁
  · -- surjective onto the member set
    intro y hy
    obtain ⟨j, hj, he⟩ := mem_iff_getD.mp ((hmm y).mp hy)
    have hi : (j + (s.length - 1)) % s.length < s.length := Nat.mod_lt _ hpos
    refine ⟨s.getD ((j + (s.length - 1)) % s.length) "",
      (hmm _).mpr (hgetmem _ hi), ?_⟩
    rw [nextOf_buildAssignments hsnd hi, Nat.mod_add_mod]
    have : j + (s.length - 1) + 1 = j + s.length := by omega
    rw [this, Nat.add_mod_right, Nat.mod_eq_of_lt hj, he]
  · -- fixed-point free
    intro x hfix
    by_cases hx : x ∈ s
    · obtain ⟨i, hi, he⟩ := mem_iff_getD.mp hx
      subst he
      rw [nextOf_buildAssignments hsnd hi] at hfix
      have := nodup_getD_inj hsnd (Nat.mod_lt _ hpos) hi (Option.some_inj.mp hfix)
      exact succ_mod_ne (by omega) hi this
    · rw [nextOf_buildAssignments_none hsnd hx] at hfix
      cases hfix
  · -- single cycle through every member
    intro x hx
    obtain ⟨i, hi, he⟩ := mem_iff_getD.mp ((hmm x).mp hx)
    subst he
    refine ⟨?_, ?_, ?_⟩
    · rw [← hslen, stepN_buildAssignments hsnd s.length i hi,
        Nat.add_mod_right, Nat.mod_eq_of_lt hi]
    · intro k hk0 hkn hret
      rw [stepN_buildAssignments hsnd k i hi] at hret
      have := nodup_getD_inj hsnd (Nat.mod_lt _ hpos) hi (Option.some_inj.mp hret)
      exact add_mod_ne_self hi hk0 (by omega) this
    · rw [← hslen,
        filterMap_eq_map_of_some _ _ (fun k => s.getD ((i + k) % s.length) "")
          (fun k _ => stepN_buildAssignments hsnd k i hi),
        map_range_shift_eq_rotate s i hpos]
      exact (List.rotate_perm s i).trans hperm

theorem mem_recordSet {V : Type} {r : List (String × V)} {k : String} {v : V}
    {p : String × V} (hp : p ∈ recordSet r k v) : p ∈ r ∨ p = (k, v) := by
  unfold recordSet at hp
  split at hp
  · obtain ⟨q, hq, hqe⟩ := List.mem_map.mp hp
    by_cases hqk : (q.1 == k) = true
    · rw [if_pos hqk] at hqe
      right
      rw [← hqe, beq_iff_eq.mp hqk]
    · rw [if_neg hqk] at hqe
      left
      rw [← hqe]
      exact hq
  · rcases List.mem_append.mp hp with h | h
    · exact Or.inl h
    · right
      simpa using h

theorem mem_foldl_recordSet {V : Type} (l : List Nat) (key : Nat → String)
    (val : Nat → V) :
    ∀ (acc : List (String × V)) (p : String × V),
    p ∈ l.foldl (fun a i => recordSet a (key i) (val i)) acc →
    p ∈ acc ∨ ∃ i ∈ l, p = (key i, val i) := by
  induction l with
  | nil => intro acc p hp; exact Or.inl hp
  | cons a t ih =>
    intro acc p hp
    rw [List.foldl_cons] at hp
    rcases ih _ p hp with h | ⟨i, hi, he⟩
    · rcases mem_recordSet h with h | h
      · exact Or.inl h
      · exact Or.inr ⟨a, List.mem_cons_self a t, h⟩
    · exact Or.inr ⟨i, List.mem_cons_of_mem a hi, he⟩

theorem mem_buildAssignments {members : List (String × MemberProfile)}
    {s : List String} {p : String × Assignment}
    (hp : p ∈ buildAssignments members s) :
    ∃ i, i < s.length ∧ p = (s.getD i "", assignmentFor members s i) := by
  unfold buildAssignments at hp
  rcases mem_foldl_recordSet _ _ _ [] p hp with h | ⟨i, hi, he⟩
  · cases h
  · exact ⟨i, List.mem_range.mp hi, he⟩

/-! ## Claim theorems -/

/-- Claim C1: for every group whose `memberIds` has length `n ≥ 2` (with the
data-model invariant that `memberIds` is a set, i.e. has no duplicate entry)
and whose members all appear in `memberIds`, `handleRunDraw` run by the owner
commits an `assignments` map that is a bijection from `memberIds` onto
`memberIds` with zero fixed points, and following the giver → recipient chain
from any member visits every member exactly once before returning to the
start, for every outcome of the random shuffle. -/
theorem runDraw_single_cycle (g : Group) (rand : Nat → Nat) (now : Nat)
    (hlen : 2 ≤ g.memberIds.length) (hnd : g.memberIds.Nodup)
    (hmem : ∀ p ∈ g.members, p.1 ∈ g.memberIds) :
    handleRunDraw g g.ownerId rand now
        = .ok { g with assignments := some (drawAssignments g rand)
                       drawRunAt := some now }
    ∧ (∀ x, (drawNext g rand x).isSome ↔ x ∈ g.memberIds)
    ∧ (∀ x y, drawNext g rand x = some y → x ∈ g.memberIds ∧ y ∈ g.memberIds)
    ∧ (∀ x₁ x₂ y, drawNext g rand x₁ = some y → drawNext g rand x₂ = some y →
        x₁ = x₂)
    ∧ (∀ y ∈ g.memberIds, ∃ x ∈ g.memberIds, drawNext g rand x = some y)
    ∧ (∀ x, drawNext g rand x ≠ some x)
    ∧ (∀ x ∈ g.memberIds,
        stepN (drawNext g rand) g.memberIds.length x = some x
        ∧ (∀ k, 0 < k → k < g.memberIds.length →
            stepN (drawNext g rand) k x ≠ some x)
        ∧ ((List.range g.memberIds.length).filterMap
            (fun k => stepN (drawNext g rand) k x)).Perm g.memberIds) := by
  have hcyc := @nextOf_buildAssignments_cycle g.members g.memberIds
    (shuffle g.memberIds rand) (shuffle_perm g.memberIds rand) hnd hlen
  refine ⟨?_, hcyc⟩
  unfold handleRunDraw
  rw [if_neg (by simp), if_neg (by omega)]
  rfl

/-- Witness for C1: the sample two-member group satisfies the hypotheses,
and the draw with the constant-zero random source has the claimed
bijection and single-cycle structure. -/
theorem runDraw_single_cycle_witness :
    (2 ≤ sampleGroup.memberIds.length ∧ sampleGroup.memberIds.Nodup
      ∧ ∀ p ∈ sampleGroup.members, p.1 ∈ sampleGroup.memberIds)
    ∧ (handleRunDraw sampleGroup sampleGroup.ownerId (fun _ => 0) 7
          = .ok { sampleGroup with
                    assignments := some (drawAssignments sampleGroup (fun _ => 0))
                    drawRunAt := some 7 }
      ∧ (∀ x, (drawNext sampleGroup (fun _ => 0) x).isSome ↔ x ∈ sampleGroup.memberIds)
      ∧ (∀ x y, drawNext sampleGroup (fun _ => 0) x = some y →
          x ∈ sampleGroup.memberIds ∧ y ∈ sampleGroup.memberIds)
      ∧ (∀ x₁ x₂ y, drawNext sampleGroup (fun _ => 0) x₁ = some y →
          drawNext sampleGroup (fun _ => 0) x₂ = some y → x₁ = x₂)
      ∧ (∀ y ∈ sampleGroup.memberIds, ∃ x ∈ sampleGroup.memberIds,
          drawNext sampleGroup (fun _ => 0) x = some y)
      ∧ (∀ x, drawNext sampleGroup (fun _ => 0) x ≠ some x)
      ∧ (∀ x ∈ sampleGroup.memberIds,
          stepN (drawNext sampleGroup (fun _ => 0)) sampleGroup.memberIds.length x
              = some x
          ∧ (∀ k, 0 < k → k < sampleGroup.memberIds.length →
              stepN (drawNext sampleGroup (fun _ => 0)) k x ≠ some x)
          ∧ ((List.range sampleGroup.memberIds.length).filterMap
              (fun k => stepN (drawNext sampleGroup (fun _ => 0)) k x)).Perm
                sampleGroup.memberIds)) :=
  ⟨⟨by decide, by decide, by decide⟩,
    runDraw_single_cycle sampleGroup (fun _ => 0) 7 (by decide) (by decide) (by decide)⟩

/-- Claim C2: for every group with fewer than 2 entries in `memberIds`, the
draw invoked by the owner fails with `InsufficientMembers` and the group's
document, `assignments` included, is left unmodified. -/
theorem runDraw_insufficient_members (g : Group) (rand : Nat → Nat) (now : Nat)
    (hlen : g.memberIds.length < 2) :
    handleRunDraw g g.ownerId rand now = .error .InsufficientMembers
    ∧ drawDocAfter g g.ownerId rand now = g := by
  have h : handleRunDraw g g.ownerId rand now = .error .InsufficientMembers := by
    unfold handleRunDraw
    rw [if_neg (by simp), if_pos hlen]
  refine ⟨h, ?_⟩
  unfold drawDocAfter
  rw [h]

/-- Witness for C2: the one-member sample group fails the draw with
`InsufficientMembers` and is unmodified. -/
theorem runDraw_insufficient_members_witness :
    soloGroup.memberIds.length < 2
    ∧ (handleRunDraw soloGroup soloGroup.ownerId (fun _ => 0) 7
          = .error .InsufficientMembers
      ∧ drawDocAfter soloGroup soloGroup.ownerId (fun _ => 0) 7 = soloGroup) :=
  ⟨by decide, runDraw_insufficient_members soloGroup (fun _ => 0) 7 (by decide)⟩

/-- Claim C4: for every requester different from the group's owner, both the
draw and the delete fail with `Forbidden` and mutate nothing: the document is
unchanged and still exists. -/
theorem nonowner_forbidden (g : Group) (r : String) (rand : Nat → Nat)
    (now : Nat) (confirmed : Bool) (hr : r ≠ g.ownerId) :
    handleRunDraw g r rand now = .error .Forbidden
    ∧ handleDeleteGroup g r confirmed = .error .Forbidden
    ∧ drawDocAfter g r rand now = g
    ∧ deleteDocAfter g r confirmed = some g := by
  have h1 : handleRunDraw g r rand now = .error .Forbidden := by
    unfold handleRunDraw
    rw [if_pos hr]
  have h2 : handleDeleteGroup g r confirmed = .error .Forbidden := by
    unfold handleDeleteGroup
    rw [if_pos hr]
  refine ⟨h1, h2, ?_, ?_⟩
  · unfold drawDocAfter
    rw [h1]
  · unfold deleteDocAfter
    rw [h2]

/-- Witness for C4: a stranger can neither draw nor delete the sample group,
and the document is untouched. -/
theorem nonowner_forbidden_witness :
    "mallory-uid-00000003" ≠ sampleGroup.ownerId
    ∧ (handleRunDraw sampleGroup "mallory-uid-00000003" (fun _ => 0) 7
          = .error .Forbidden
      ∧ handleDeleteGroup sampleGroup "mallory-uid-00000003" true
          = .error .Forbidden
      ∧ drawDocAfter sampleGroup "mallory-uid-00000003" (fun _ => 0) 7 = sampleGroup
      ∧ deleteDocAfter sampleGroup "mallory-uid-00000003" true = some sampleGroup) :=
  ⟨by decide,
    nonowner_forbidden sampleGroup "mallory-uid-00000003" (fun _ => 0) 7 true (by decide)⟩

/-- Claim C9: a successful draw is a single update that wholesale replaces
`assignments` (independently of any prior assignment map, including on a
re-run) and sets `drawRunAt`, and modifies no other field of the group
document. -/
theorem runDraw_commit_frame (g : Group) (rand : Nat → Nat) (now : Nat)
    (hlen : 2 ≤ g.memberIds.length) :
    handleRunDraw g g.ownerId rand now
        = .ok { g with assignments := some (drawAssignments g rand)
                       drawRunAt := some now }
    ∧ (∀ g', handleRunDraw g g.ownerId rand now = .ok g' →
        g'.id = g.id ∧ g'.name = g.name ∧ g'.description = g.description
        ∧ g'.ownerId = g.ownerId ∧ g'.ownerName = g.ownerName
        ∧ g'.ownerPhotoURL = g.ownerPhotoURL ∧ g'.memberIds = g.memberIds
        ∧ g'.members = g.members ∧ g'.customFields = g.customFields
        ∧ g'.memberResponses = g.memberResponses ∧ g'.createdAt = g.createdAt
        ∧ g'.assignments = some (drawAssignments g rand) ∧ g'.drawRunAt = some now)
    ∧ (∀ prior, handleRunDraw { g with assignments := prior } g.ownerId rand now
        = .ok { g with assignments := some (drawAssignments g rand)
                       drawRunAt := some now }) := by
  have h : handleRunDraw g g.ownerId rand now
      = .ok { g with assignments := some (drawAssignments g rand)
                     drawRunAt := some now } := by
    unfold handleRunDraw
    rw [if_neg (by simp), if_neg (by omega)]
    rfl
  refine ⟨h, ?_, ?_⟩
  · intro g' hg'
    rw [h] at hg'
    injection hg' with hg'
    subst hg'
    exact ⟨rfl, rfl, rfl, rfl, rfl, rfl, rfl, rfl, rfl, rfl, rfl, rfl, rfl⟩
  · intro prior
    exact h

/-- Witness for C9: on the sample group the draw commits exactly the
replacement of `assignments` and `drawRunAt`. -/
theorem runDraw_commit_frame_witness :
    2 ≤ sampleGroup.memberIds.length
    ∧ (handleRunDraw sampleGroup sampleGroup.ownerId (fun _ => 0) 7
          = .ok { sampleGroup with
                    assignments := some (drawAssignments sampleGroup (fun _ => 0))
                    drawRunAt := some 7 }
      ∧ (∀ g', handleRunDraw sampleGroup sampleGroup.ownerId (fun _ => 0) 7 = .ok g' →
          g'.id = sampleGroup.id ∧ g'.name = sampleGroup.name
          ∧ g'.description = sampleGroup.description
          ∧ g'.ownerId = sampleGroup.ownerId ∧ g'.ownerName = sampleGroup.ownerName
          ∧ g'.ownerPhotoURL = sampleGroup.ownerPhotoURL
          ∧ g'.memberIds = sampleGroup.memberIds ∧ g'.members = sampleGroup.members
          ∧ g'.customFields = sampleGroup.customFields
          ∧ g'.memberResponses = sampleGroup.memberResponses
          ∧ g'.createdAt = sampleGroup.createdAt
          ∧ g'.assignments = some (drawAssignments sampleGroup (fun _ => 0))
          ∧ g'.drawRunAt = some 7)
      ∧ (∀ prior, handleRunDraw { sampleGroup with assignments := prior }
            sampleGroup.ownerId (fun _ => 0) 7
          = .ok { sampleGroup with
                    assignments := some (drawAssignments sampleGroup (fun _ => 0))
                    drawRunAt := some 7 })) :=
  ⟨by decide, runDraw_commit_frame sampleGroup (fun _ => 0) 7 (by decide)⟩

/-- Claim C10: the draw is total even when some member id has no profile
entry in `members`: it does not fail, and every assignment whose recipient
lacks a profile carries the placeholder name `Mystery Santa` and a null
avatar. -/
theorem runDraw_missing_profile_total (g : Group) (rand : Nat → Nat) (now : Nat)
    (hlen : 2 ≤ g.memberIds.length)
    (hviol : ∃ m ∈ g.memberIds, recordLookup g.members m = none) :
    (handleRunDraw g g.ownerId rand now).isOk = true
    ∧ ∀ p ∈ drawAssignments g rand,
        recordLookup g.members p.2.recipientId = none →
        p.2.recipientName = "Mystery Santa" ∧ p.2.recipientPhotoURL = none := by
  constructor
  · unfold handleRunDraw
    rw [if_neg (by simp), if_neg (by omega)]
    rfl
  · intro p hp hnoprof
    unfold drawAssignments at hp
    obtain ⟨i, hi, he⟩ := mem_buildAssignments hp
    subst he
    simp only [assignmentFor] at hnoprof ⊢
    rw [hnoprof]
    simp

/-- Witness for C10: the sample group whose second member id has no profile
still draws successfully, with `Mystery Santa` placeholders for the missing
profile. -/
theorem runDraw_missing_profile_total_witness :
    (2 ≤ gapGroup.memberIds.length
      ∧ ∃ m ∈ gapGroup.memberIds, recordLookup gapGroup.members m = none)
    ∧ ((handleRunDraw gapGroup gapGroup.ownerId (fun _ => 0) 7).isOk = true
      ∧ ∀ p ∈ drawAssignments gapGroup (fun _ => 0),
          recordLookup gapGroup.members p.2.recipientId = none →
          p.2.recipientName = "Mystery Santa" ∧ p.2.recipientPhotoURL = none) :=
  ⟨⟨by decide, by decide⟩,
    runDraw_missing_profile_total gapGroup (fun _ => 0) 7 (by decide) (by decide)⟩

/-- Claim C3: joining a resolved group as a non-member with at least one
custom field left blank (missing or whitespace-only after trimming) fails
with `IncompleteResponses` listing exactly the labels of the blank fields,
and persists nothing. -/
theorem join_incomplete_responses (g : Group) (u : User)
    (joinResponses : List (String × String)) (hnm : u.uid ∉ g.memberIds)
    (hblank : ∃ f ∈ g.customFields, isBlankResponse joinResponses f = true) :
    handleJoinGroup (some g) u joinResponses
        = .error (.IncompleteResponses
            ((g.customFields.filter (isBlankResponse joinResponses)).map
              CustomField.label))
    ∧ (∀ lab, lab ∈ (g.customFields.filter (isBlankResponse joinResponses)).map
          CustomField.label
        ↔ ∃ f ∈ g.customFields, isBlankResponse joinResponses f = true ∧ f.label = lab)
    ∧ joinDocAfter g u joinResponses = g := by
  obtain ⟨f0, hf0, hb0⟩ := hblank
  have hlen : 0 < g.customFields.length := by
    cases hcf : g.customFields with
    | nil => rw [hcf] at hf0; cases hf0
    | cons a t => simp [hcf]
  have hne : g.customFields.filter (isBlankResponse joinResponses) ≠ [] := by
    intro hnil
    have hmem := List.mem_filter.mpr ⟨hf0, hb0⟩
    rw [hnil] at hmem
    cases hmem
  have h : handleJoinGroup (some g) u joinResponses
      = .error (.IncompleteResponses
          ((g.customFields.filter (isBlankResponse joinResponses)).map
            CustomField.label)) := by
    simp only [handleJoinGroup]
    rw [if_neg hnm, if_pos ⟨hlen, hne⟩]
  refine ⟨h, ?_, ?_⟩
  · intro lab
    constructor
    · intro hl
      obtain ⟨f, hf, he⟩ := List.mem_map.mp hl
      have hfm := List.mem_filter.mp hf
      exact ⟨f, hfm.1, hfm.2, he⟩
    · rintro ⟨f, hf, hb, he⟩
      exact List.mem_map.mpr ⟨f, List.mem_filter.mpr ⟨hf, hb⟩, he⟩
  · unfold joinDocAfter
    rw [h]

/-- Witness for C3: a non-member joining the sample group (which has one
custom field) with empty responses fails with exactly that field's label and
persists nothing. -/
theorem join_incomplete_responses_witness :
    (bobUser.uid ∉ formGroup.memberIds
      ∧ ∃ f ∈ formGroup.customFields, isBlankResponse [] f = true)
    ∧ (handleJoinGroup (some formGroup) bobUser []
          = .error (.IncompleteResponses
              ((formGroup.customFields.filter (isBlankResponse [])).map
                CustomField.label))
      ∧ (∀ lab, lab ∈ (formGroup.customFields.filter (isBlankResponse [])).map
            CustomField.label
          ↔ ∃ f ∈ formGroup.customFields,
              isBlankResponse [] f = true ∧ f.label = lab)
      ∧ joinDocAfter formGroup bobUser [] = formGroup) :=
  ⟨⟨by decide, by decide⟩,
    join_incomplete_responses formGroup bobUser [] (by decide) (by decide)⟩

/-- Claim C5: joining as an existing member fails with `AlreadyMember` and
leaves the group unchanged, and — with the set-union semantics of the
membership write — every operation preserves the invariant that a user id
appears in `memberIds` at most once: successful joins preserve `Nodup`,
creation produces a singleton member list, and draw and delete never touch
`memberIds`. -/
theorem join_already_member_unique (g : Group) (u : User)
    (joinResponses : List (String × String)) :
    (u.uid ∈ g.memberIds →
      handleJoinGroup (some g) u joinResponses = .error .AlreadyMember
      ∧ joinDocAfter g u joinResponses = g)
    ∧ (g.memberIds.Nodup → ∀ g',
        handleJoinGroup (some g) u joinResponses = .ok g' → g'.memberIds.Nodup)
    ∧ (∀ nm ds cf i t g', handleCreateGroup u nm ds cf i t = .ok g' →
        g'.memberIds = [u.uid])
    ∧ (∀ r rand t g', handleRunDraw g r rand t = .ok g' →
        g'.memberIds = g.memberIds)
    ∧ (∀ r c g', handleDeleteGroup g r c = .ok (some g') → g' = g) := by
  refine ⟨?_, ?_, ?_, ?_, ?_⟩
  · intro hm
    have h : handleJoinGroup (some g) u joinResponses = .error .AlreadyMember := by
      simp only [handleJoinGroup]
      rw [if_pos hm]
    refine ⟨h, ?_⟩
    unfold joinDocAfter
    rw [h]
  · intro hnd g' hok
    by_cases hm : u.uid ∈ g.memberIds
    · simp only [handleJoinGroup] at hok
      rw [if_pos hm] at hok
      cases hok
    · simp only [handleJoinGroup] at hok
      rw [if_neg hm] at hok
      split at hok
      · cases hok
      · injection hok with hok
        subst hok
        show (arrayUnion g.memberIds u.uid).Nodup
        unfold arrayUnion
        rw [if_neg hm]
        simp [List.nodup_append, hnd, hm]
  · intro nm ds cf i t g' hok
    simp only [handleCreateGroup] at hok
    split at hok
    · cases hok
    · injection hok with hok
      subst hok
      rfl
  · intro r rand t g' hok
    simp only [handleRunDraw] at hok
    split at hok
    · cases hok
    · split at hok
      · cases hok
      · injection hok with hok
        subst hok
        rfl
  · intro r c g' hok
    simp only [handleDeleteGroup] at hok
    split at hok
    · cases hok
    · split at hok
      · injection hok with hok
        injection hok with hok
        exact hok.symm
      · cases hok

/-- Witness for C5: joining the sample group as its existing member fails
with `AlreadyMember`, and the uniqueness invariant holds on the sample
operations. -/
theorem join_already_member_unique_witness :
    (aliceUser.uid ∈ sampleGroup.memberIds ∧ sampleGroup.memberIds.Nodup)
    ∧ (handleJoinGroup (some sampleGroup) aliceUser [] = .error .AlreadyMember
      ∧ joinDocAfter sampleGroup aliceUser [] = sampleGroup)
    ∧ (∀ g', handleJoinGroup (some sampleGroup) aliceUser [] = .ok g' →
        g'.memberIds.Nodup)
    ∧ (∀ nm ds cf i t g', handleCreateGroup aliceUser nm ds cf i t = .ok g' →
        g'.memberIds = [aliceUser.uid])
    ∧ (∀ r rand t g', handleRunDraw sampleGroup r rand t = .ok g' →
        g'.memberIds = sampleGroup.memberIds)
    ∧ (∀ r c g', handleDeleteGroup sampleGroup r c = .ok (some g') →
        g' = sampleGroup) :=
  ⟨⟨by decide, by decide⟩,
    (join_already_member_unique sampleGroup aliceUser []).1 (by decide),
    (join_already_member_unique sampleGroup aliceUser []).2.1 (by decide),
    (join_already_member_unique sampleGroup aliceUser []).2.2.1,
    (join_already_member_unique sampleGroup aliceUser []).2.2.2.1,
    (join_already_member_unique sampleGroup aliceUser []).2.2.2.2⟩

/-- Claim C6: creating a group with a blank (whitespace-only) name fails
with `ValidationError` and persists nothing; with a non-blank name it
persists a new group whose sole member is the creating user, whose owner
fields identify the creating user, with `assignments` unset and
`memberResponses` empty, returning the store-assigned id. -/
theorem create_group_spec (u : User) (nm ds : String) (cf : List CustomField)
    (newId : String) (now : Nat) :
    (jsTrim nm = "" →
      handleCreateGroup u nm ds cf newId now = .error .ValidationError
      ∧ createdDocAfter u nm ds cf newId now = none)
    ∧ (jsTrim nm ≠ "" → ∃ g',
        handleCreateGroup u nm ds cf newId now = .ok g'
        ∧ g'.id = newId ∧ g'.memberIds = [u.uid]
        ∧ g'.members = [(u.uid, ⟨getDisplayName u, u.photoURL⟩)]
        ∧ g'.ownerId = u.uid ∧ g'.ownerName = getDisplayName u
        ∧ g'.ownerPhotoURL = u.photoURL
        ∧ g'.assignments = none ∧ g'.memberResponses = []) := by
  constructor
  · intro hb
    have h : handleCreateGroup u nm ds cf newId now = .error .ValidationError := by
      simp only [handleCreateGroup]
      rw [if_pos hb]
    refine ⟨h, ?_⟩
    unfold createdDocAfter
    rw [h]
  · intro hb
    refine ⟨{ id := newId
              name := jsTrim nm
              description := some (jsTrim ds)
              ownerId := u.uid
              ownerName := getDisplayName u
              ownerPhotoURL := u.photoURL
              memberIds := [u.uid]
              members := [(u.uid, ⟨getDisplayName u, u.photoURL⟩)]
              assignments := none
              customFields := if 0 < cf.length then cf else []
              memberResponses := []
              createdAt := some now
              drawRunAt := none }, ?_, rfl, rfl, rfl, rfl, rfl, rfl, rfl, rfl⟩
    simp only [handleCreateGroup]
    rw [if_neg hb]

/-- Witness for C6: a whitespace-only name fails validation and persists
nothing; the name `Office Party` succeeds with the creating user as sole
member and owner. -/
theorem create_group_spec_witness :
    (jsTrim " " = "" ∧ jsTrim "Office Party" ≠ "")
    ∧ (handleCreateGroup aliceUser " " "" [] "new-group-id-0000004" 3
          = .error .ValidationError
      ∧ createdDocAfter aliceUser " " "" [] "new-group-id-0000004" 3 = none)
    ∧ (∃ g', handleCreateGroup aliceUser "Office Party" "" [] "new-group-id-0000004" 3
          = .ok g'
        ∧ g'.id = "new-group-id-0000004" ∧ g'.memberIds = [aliceUser.uid]
        ∧ g'.members = [(aliceUser.uid, ⟨getDisplayName aliceUser, aliceUser.photoURL⟩)]
        ∧ g'.ownerId = aliceUser.uid ∧ g'.ownerName = getDisplayName aliceUser
        ∧ g'.ownerPhotoURL = aliceUser.photoURL
        ∧ g'.assignments = none ∧ g'.memberResponses = []) :=
  ⟨⟨by decide, by decide⟩,
    (create_group_spec aliceUser " " "" [] "new-group-id-0000004" 3).1 (by decide),
    (create_group_spec aliceUser "Office Party" "" [] "new-group-id-0000004" 3).2
      (by decide)⟩

theorem resolveSelection_none_eq (groups : List Group) :
    resolveSelection groups none = (groups.head?).map Group.id := rfl

theorem resolveSelection_some_eq (groups : List Group) (i : String) :
    resolveSelection groups (some i)
      = if (groups.any fun g => g.id == i) = true then some i
        else (groups.head?).map Group.id := rfl

/-- Claim C7: resolving the selection never errors and always yields either
a group present in the current sequence or explicitly no selection: a
candidate id not among the sequence falls back to the first group's id, or
to none when the sequence is empty. -/
theorem selection_resolves_valid (groups : List Group) (sel : Option String) :
    (resolveSelection groups sel = none → groups = [])
    ∧ (∀ i, resolveSelection groups sel = some i → ∃ g ∈ groups, g.id = i)
    ∧ (∀ i0, (∀ g ∈ groups, g.id ≠ i0) →
        resolveSelection groups (some i0) = (groups.head?).map Group.id) := by
  refine ⟨?_, ?_, ?_⟩
  · intro h
    cases groups with
    | nil => rfl
    | cons g t =>
      exfalso
      cases sel with
      | none =>
        rw [resolveSelection_none_eq] at h
        simp at h
      | some i =>
        rw [resolveSelection_some_eq] at h
        by_cases hany : ((g :: t).any (fun g' => g'.id == i)) = true
        · rw [if_pos hany] at h
          cases h
        · rw [if_neg hany] at h
          simp at h
  · intro i h
    cases sel with
    | none =>
      rw [resolveSelection_none_eq] at h
      cases groups with
      | nil => cases h
      | cons g t =>
        refine ⟨g, List.mem_cons_self g t, ?_⟩
        simpa using h
    | some j =>
      rw [resolveSelection_some_eq] at h
      by_cases hany : (groups.any (fun g' => g'.id == j)) = true
      · rw [if_pos hany] at h
        obtain ⟨g, hg, he⟩ := List.any_eq_true.mp hany
        injection h with h
        subst h
        exact ⟨g, hg, beq_iff_eq.mp he⟩
      · rw [if_neg hany] at h
        cases groups with
        | nil => cases h
        | cons g t =>
          refine ⟨g, List.mem_cons_self g t, ?_⟩
          simpa using h
  · intro i0 hno
    rw [resolveSelection_some_eq]
    rw [if_neg]
    intro hany
    obtain ⟨g, hg, he⟩ := List.any_eq_true.mp hany
    exact hno g hg (beq_iff_eq.mp he)

/-- Witness for C7: the empty sequence resolves a stale id to no selection,
and a one-group sequence resolves the stale id to that group's id. -/
theorem selection_resolves_valid_witness :
    ([] : List Group) = []
    ∧ (∃ g ∈ [sampleGroup], g.id = "group-doc-id-0000001")
    ∧ resolveSelection [sampleGroup] (some "stale")
        = (([sampleGroup].head?).map Group.id) :=
  ⟨(selection_resolves_valid [] (some "stale")).1 (by decide),
    (selection_resolves_valid [sampleGroup] (some "stale")).2.1
      "group-doc-id-0000001" (by decide),
    (selection_resolves_valid [sampleGroup] (some "stale")).2.2 "stale" (by decide)⟩

/-- Claim C8: `loadGroupFields` performs the store lookup exactly when the
trimmed code reaches length 20; when it runs it returns the group's
`customFields` snapshot and degrades to the empty schema when the group is
missing or the lookup errors, never throwing past this boundary. -/
theorem load_join_schema_spec (code : String) (fetch : FetchResult) :
    ((loadGroupFields code fetch).1 = true ↔ 20 ≤ (jsTrim code).length)
    ∧ (20 ≤ (jsTrim code).length →
        (∀ g, (loadGroupFields code (.found g)).2.1 = g.customFields)
        ∧ (loadGroupFields code .missing).2.1 = []
        ∧ (loadGroupFields code .failure).2.1 = [])
    ∧ ((jsTrim code).length < 20 → loadGroupFields code fetch = (false, [], [])) := by
  by_cases h20 : (jsTrim code).length < 20
  · have hshort : ∀ f, loadGroupFields code f = (false, [], []) := by
      intro f
      simp only [loadGroupFields]
      rw [if_pos (Or.inr h20)]
    refine ⟨?_, ?_, ?_⟩
    · rw [hshort fetch]
      simp
      omega
    · intro h
      omega
    · intro _
      exact hshort fetch
  · have hne : ¬(jsTrim code = "" ∨ (jsTrim code).length < 20) := by
      rintro (he | hl)
      · rw [he] at h20
        simp at h20
      · exact h20 hl
    refine ⟨?_, ?_, ?_⟩
    · cases fetch with
      | failure =>
        simp only [loadGroupFields]
        rw [if_neg hne]
        simp
        omega
      | missing =>
        simp only [loadGroupFields]
        rw [if_neg hne]
        simp
        omega
      | found g =>
        simp only [loadGroupFields]
        rw [if_neg hne]
        simp
        omega
    · intro _
      refine ⟨?_, ?_, ?_⟩
      · intro g
        simp only [loadGroupFields]
        rw [if_neg hne]
      · simp only [loadGroupFields]
        rw [if_neg hne]
      · simp only [loadGroupFields]
        rw [if_neg hne]
    · intro h
      omega

/-- Witness for C8: a 20-character code triggers the lookup and returns the
sample group's schema; a short code skips the lookup entirely. -/
theorem load_join_schema_spec_witness :
    (20 ≤ (jsTrim "group-doc-id-0000001").length
      ∧ (jsTrim "abc").length < 20)
    ∧ ((loadGroupFields "group-doc-id-0000001" (.found sampleGroup)).1 = true
        ↔ 20 ≤ (jsTrim "group-doc-id-0000001").length)
    ∧ ((∀ g, (loadGroupFields "group-doc-id-0000001" (.found g)).2.1
          = g.customFields)
      ∧ (loadGroupFields "group-doc-id-0000001" FetchResult.missing).2.1 = []
      ∧ (loadGroupFields "group-doc-id-0000001" FetchResult.failure).2.1 = [])
    ∧ loadGroupFields "abc" FetchResult.missing = (false, [], []) :=
  ⟨⟨by decide, by decide⟩,
    (load_join_schema_spec "group-doc-id-0000001" (.found sampleGroup)).1,
    (load_join_schema_spec "group-doc-id-0000001" (.found sampleGroup)).2.1
      (by decide),
    (load_join_schema_spec "abc" FetchResult.missing).2.2 (by decide)⟩

end SecretSanta
